import Mathlib

/-! Frame header codec of `http2client/frames/frame.go`.

A shallow embedding of the framing layer: the frame header codec
(`encodeHeader`, `DecodeHeader`), the flag primitives (`Flag.isSet`,
`Flag.set`), the padding primitive (`stripPadding`), the decoder registry
(`FindDecoder`) and the diagnostic names (`Type.String`).

Go's `byte` and `uint32` values are natural numbers; the theorems carry the
range of each value as a hypothesis. A slice `[]byte` is the list of its
octets, and an index or slice expression that Go rejects at run time (a
panic) is the `none` result of the embedding. Where the capacity of a slice
matters (`DecodeHeaderCap`), the octets of the backing array past the length
are a second list.
-/

namespace frames

/-! ## Data model -/

/-- The record `FrameHeader` of frame.go: four fields, in declaration order. -/
structure FrameHeader where
  Length : Nat
  HeaderType : Nat
  Flags : Nat
  StreamId : Nat
  deriving DecidableEq, Repr

/-! ## Slices and big-endian integers -/

/-- Go's slice expression `data[lo:hi]`, on a slice whose capacity is its
length: defined when `lo ≤ hi ≤ len(data)`. -/
def slice (data : List Nat) (lo hi : Nat) : Option (List Nat) :=
  if lo ≤ hi ∧ hi ≤ data.length then some ((data.take hi).drop lo) else none

/-- Go's index expression `data[i]`: defined when `i < len(data)`. -/
def index (data : List Nat) (i : Nat) : Option Nat :=
  data.get? i

/-- Big-endian value of a sequence of octets, first octet most significant. -/
def bigEndian (data : List Nat) : Nat :=
  data.foldl (fun acc b => acc * 256 + b) 0

/-- The call `binary.BigEndian.PutUint32(bytes, v)` on a 4-octet buffer:
`byte(v >> 24), byte(v >> 16), byte(v >> 8), byte(v)`. -/
def PutUint32 (v : Nat) : List Nat :=
  [v / 2 ^ 24 % 256, v / 2 ^ 16 % 256, v / 2 ^ 8 % 256, v % 256]

/-- Modelled from the spec: the helper `uint32_ignoreFirstBit`, which
`DecodeHeader` calls and frame.go does not define. The spec has `DecodeHeader`
read "a 24-bit big-endian length from octets 0–2" through it and "a 31-bit
big-endian stream id from octets 5–8 with the top bit discarded": the helper
reads its argument as a big-endian unsigned 32-bit integer and drops bit 31 of
that integer. -/
def uint32_ignoreFirstBit (data : List Nat) : Nat :=
  bigEndian data % 2 ^ 31

/-! ## Flags -/

/-- The method `func (flag Flag) isSet(flagsByte byte) bool`. -/
def Flag.isSet (flag : Nat) (flagsByte : Nat) : Bool :=
  flagsByte &&& flag != 0

/-- The method `func (flag Flag) set(flagsByte *byte)`: the new value of the
byte the pointer designates. -/
def Flag.set (flag : Nat) (flagsByte : Nat) : Nat :=
  flagsByte ||| flag

/-! ## Header codec -/

/-- The function `encodeHeader`. The 4-octet scratch buffer `bytes` and the
output buffer `result` are threaded through the statements in source order. -/
def encodeHeader (frameType streamId length : Nat) (flags : List Nat) : List Nat :=
  let result : List Nat := []
  let bytes := PutUint32 length
  let result := result ++ bytes.drop 1
  let bytes := bytes.set 0 frameType
  let result := result ++ (bytes.drop 0).take 1
  let bytes := bytes.set 0 0
  let bytes := flags.foldl (fun bs flag => bs.set 0 (Flag.set flag (bs.getD 0 0))) bytes
  let result := result ++ (bytes.drop 0).take 1
  let bytes := PutUint32 streamId
  let result := result ++ bytes
  result

/-- The function `DecodeHeader`. The fields are evaluated in source order and
the first out-of-range slice or index makes the whole call fail. -/
def DecodeHeader (data : List Nat) : Option FrameHeader := do
  let l ← slice data 0 3
  let t ← index data 3
  let f ← index data 4
  let s ← slice data 5 9
  pure { Length := uint32_ignoreFirstBit l, HeaderType := t, Flags := f,
         StreamId := uint32_ignoreFirstBit s }

/-- Go's slice expression `data[lo:hi]` on a slice with spare capacity: `spare`
holds the octets of the backing array between `len(data)` and `cap(data)`. The
upper bound of a slice expression on a slice is the capacity, not the length,
so the result may reach into `spare`. -/
def sliceCap (data spare : List Nat) (lo hi : Nat) : Option (List Nat) :=
  if lo ≤ hi ∧ hi ≤ data.length + spare.length then
    some (((data ++ spare).take hi).drop lo)
  else none

/-- The function `DecodeHeader` on a slice with spare capacity `spare`: the two
slice expressions are bounded by the capacity, the two index expressions by
the length. With no spare capacity this is `DecodeHeader`. -/
def DecodeHeaderCap (data spare : List Nat) : Option FrameHeader := do
  let l ← sliceCap data spare 0 3
  let t ← index data 3
  let f ← index data 4
  let s ← sliceCap data spare 5 9
  pure { Length := uint32_ignoreFirstBit l, HeaderType := t, Flags := f,
         StreamId := uint32_ignoreFirstBit s }

/-- The flags byte the encoder builds: every flag OR-ed into a zeroed byte. -/
def combineFlags (flags : List Nat) : Nat :=
  flags.foldl (fun b flag => b ||| flag) 0

/-! ## Padding primitive -/

/-- What a call of `stripPadding` returns: the content with a nil error, or a
nil content with the error built by `fmt.Errorf`. -/
inductive PaddingResult where
  | content (c : List Nat)
  | error (msg : String)
  deriving DecidableEq, Repr

/-- The function `stripPadding`. `payload[0]` is read first (out of range on
the empty payload); past the guard `len(payload) > padLength`, so the
subtraction is the one of Go's `int`. -/
def stripPadding (payload : List Nat) : Option PaddingResult := do
  let padLength ← index payload 0
  if payload.length ≤ padLength then
    pure (PaddingResult.error "Invalid HEADERS frame: padding >= payload.")
  else
    let c ← slice payload 1 (payload.length - padLength)
    pure (PaddingResult.content c)

/-! ## Frame types -/

def DATA_TYPE : Nat := 0x00
def HEADERS_TYPE : Nat := 0x01
def PRIORITY_TYPE : Nat := 0x02
def RST_STREAM_TYPE : Nat := 0x03
def SETTINGS_TYPE : Nat := 0x04
def PUSH_PROMISE_TYPE : Nat := 0x05
def PING_TYPE : Nat := 0x06
def GOAWAY_TYPE : Nat := 0x07
def WINDOW_UPDATE_TYPE : Nat := 0x08

/-- The nine decode functions `FindDecoder` can return. Their bodies are in the
per-frame files; the registry only hands out the function, so a decoder is
identified by its name. -/
inductive Decoder where
  | DecodeDataFrame
  | DecodeHeadersFrame
  | DecodePriorityFrame
  | DecodeRstStreamFrame
  | DecodeSettingsFrame
  | DecodePushPromiseFrame
  | DecodePingFrame
  | DecodeGoAwayFrame
  | DecodeWindowUpdateFrame
  deriving DecidableEq, Repr

/-- The function `FindDecoder`: a `switch` over the type code, whose `default`
branch returns `nil` (here `none`). -/
def FindDecoder (frameType : Nat) : Option Decoder :=
  if frameType = DATA_TYPE then some Decoder.DecodeDataFrame
  else if frameType = HEADERS_TYPE then some Decoder.DecodeHeadersFrame
  else if frameType = PRIORITY_TYPE then some Decoder.DecodePriorityFrame
  else if frameType = RST_STREAM_TYPE then some Decoder.DecodeRstStreamFrame
  else if frameType = SETTINGS_TYPE then some Decoder.DecodeSettingsFrame
  else if frameType = PUSH_PROMISE_TYPE then some Decoder.DecodePushPromiseFrame
  else if frameType = PING_TYPE then some Decoder.DecodePingFrame
  else if frameType = GOAWAY_TYPE then some Decoder.DecodeGoAwayFrame
  else if frameType = WINDOW_UPDATE_TYPE then some Decoder.DecodeWindowUpdateFrame
  else none

/-- The verb `%02X` of Go's `fmt` on an unsigned integer: the digits in base
16, upper case, most significant first, left-padded with `0` to two. -/
def fmt02X (u : Nat) : List Char :=
  let digits := (Nat.toDigits 16 u).map Char.toUpper
  List.replicate (2 - digits.length) '0' ++ digits

/-- The method `func (t Type) String() string`: a `switch` over the type code,
whose `default` branch formats the code with `fmt.Sprintf`. -/
def Type_String (t : Nat) : String :=
  if t = DATA_TYPE then "DATA"
  else if t = HEADERS_TYPE then "HEADERS"
  else if t = PRIORITY_TYPE then "PRIORITY"
  else if t = RST_STREAM_TYPE then "RST_STREAM"
  else if t = SETTINGS_TYPE then "SETTINGS"
  else if t = PUSH_PROMISE_TYPE then "PUSH_PROMISE"
  else if t = PING_TYPE then "PING"
  else if t = GOAWAY_TYPE then "GOAWAY"
  else if t = WINDOW_UPDATE_TYPE then "WINDOW_UPDATE"
  else "'UNKNOWN TYPE 0x" ++ String.mk (fmt02X t) ++ "'"

/-- The sixteen upper-case hexadecimal digits, by value. -/
def upperHexDigit (d : Nat) : Char :=
  "0123456789ABCDEF".toList.getD d '?'

/-! ## Lemmas on the header codec -/

/-- The flag loop of `encodeHeader` only ever rewrites octet 0 of the scratch
buffer, into which it ORs every flag. -/
theorem flag_loop (flags : List Nat) (x : Nat) (rest : List Nat) :
    flags.foldl (fun bs flag => bs.set 0 (Flag.set flag (bs.getD 0 0))) (x :: rest)
      = flags.foldl (fun b flag => b ||| flag) x :: rest := by
  induction flags generalizing x with
  | nil => rfl
  | cons f fs ih =>
    rw [List.foldl_cons, List.foldl_cons]
    exact ih (x ||| f)

/-- OR-ing bytes into a byte gives a byte. -/
theorem foldl_or_lt (flags : List Nat) (x : Nat) (hx : x < 256)
    (hfs : ∀ f ∈ flags, f < 256) : flags.foldl (fun b flag => b ||| flag) x < 256 := by
  induction flags generalizing x with
  | nil => simpa using hx
  | cons f fs ih =>
    simp only [List.foldl_cons]
    apply ih
    · have hf : f < 2 ^ 8 := hfs f (List.mem_cons_self f fs)
      have hx8 : x < 2 ^ 8 := hx
      exact Nat.or_lt_two_pow hx8 hf
    · intro g hg
      exact hfs g (List.mem_cons_of_mem f hg)

/-- The nine octets `encodeHeader` writes, in order. -/
theorem encodeHeader_octets (t s n : Nat) (fs : List Nat) :
    encodeHeader t s n fs
      = [n / 2 ^ 16 % 256, n / 2 ^ 8 % 256, n % 256, t, combineFlags fs,
         s / 2 ^ 24 % 256, s / 2 ^ 16 % 256, s / 2 ^ 8 % 256, s % 256] := by
  unfold encodeHeader PutUint32 combineFlags
  simp only [List.set_cons_zero, flag_loop]
  rfl

/-- On a buffer of at least nine octets `DecodeHeader` returns a header, built
from the first nine octets. -/
theorem DecodeHeader_cons (a b c t f p q r u : Nat) (rest : List Nat) :
    DecodeHeader (a :: b :: c :: t :: f :: p :: q :: r :: u :: rest)
      = some { Length := ((a * 256 + b) * 256 + c) % 2 ^ 31, HeaderType := t, Flags := f,
               StreamId := (((p * 256 + q) * 256 + r) * 256 + u) % 2 ^ 31 } := by
  simp [DecodeHeader, slice, index, uint32_ignoreFirstBit, bigEndian]

/-- A list of at least nine elements, taken apart. -/
theorem nine_octets (d : List Nat) (hlen : 9 ≤ d.length) :
    ∃ a b c t f p q r u rest, d = a :: b :: c :: t :: f :: p :: q :: r :: u :: rest := by
  match d, hlen with
  | a :: b :: c :: t :: f :: p :: q :: r :: u :: rest, _ =>
    exact ⟨a, b, c, t, f, p, q, r, u, rest, rfl⟩

/-! ## Header codec: round trip, decoded fields, encoded layout -/

/-- C1: header round trip. For every type code `t`, stream id `s < 2^31`,
length `n < 2^24` and list of flag bytes `fs`, decoding the encoded header
gives the header with length `n`, type `t`, flags the OR of all flags in `fs`
(0 for the empty list) and stream id `s`. -/
theorem decode_encode_roundtrip (t s n : Nat) (fs : List Nat)
    (_ht : t < 256) (hs : s < 2 ^ 31) (hn : n < 2 ^ 24) (hfs : ∀ f ∈ fs, f < 256) :
    DecodeHeader (encodeHeader t s n fs)
      = some { Length := n, HeaderType := t, Flags := combineFlags fs, StreamId := s }
    ∧ combineFlags fs < 256
    ∧ combineFlags [] = 0 := by
  refine ⟨?_, foldl_or_lt fs 0 (by decide) hfs, rfl⟩
  rw [encodeHeader_octets, DecodeHeader_cons]
  have hl : ((n / 2 ^ 16 % 256 * 256 + n / 2 ^ 8 % 256) * 256 + n % 256) % 2 ^ 31 = n := by
    omega
  have hsid : (((s / 2 ^ 24 % 256 * 256 + s / 2 ^ 16 % 256) * 256 + s / 2 ^ 8 % 256) * 256
      + s % 256) % 2 ^ 31 = s := by
    omega
  rw [hl, hsid]

/-- C1, at the input of the spec: a HEADERS header of length 10 on stream 3
with the flag 0x04 decodes to length 10, type 1, flags 0x04, stream 3. -/
theorem decode_encode_roundtrip_witness :
    (1 < 256 ∧ 3 < 2 ^ 31 ∧ 10 < 2 ^ 24 ∧ ∀ f ∈ [4], f < 256)
    ∧ DecodeHeader (encodeHeader 1 3 10 [4])
        = some { Length := 10, HeaderType := 1, Flags := 4, StreamId := 3 } :=
  ⟨by decide,
   (decode_encode_roundtrip 1 3 10 [4] (by decide) (by decide) (by decide) (by decide)).1⟩

/-- C2: the decoded length is the full 24-bit field. For every input of at
least nine octets, `DecodeHeader` returns a header whose `Length` is
`d[0]*65536 + d[1]*256 + d[2]`, whatever the top bit of octet 0. -/
theorem DecodeHeader_length (d : List Nat) (hlen : 9 ≤ d.length) (hb : ∀ x ∈ d, x < 256) :
    ∃ h, DecodeHeader d = some h
      ∧ h.Length = d.getD 0 0 * 65536 + d.getD 1 0 * 256 + d.getD 2 0 := by
  obtain ⟨a, b, c, t, f, p, q, r, u, rest, rfl⟩ := nine_octets d hlen
  refine ⟨_, DecodeHeader_cons a b c t f p q r u rest, ?_⟩
  have ha : a < 256 := hb a (by simp)
  have hb1 : b < 256 := hb b (by simp)
  have hc : c < 256 := hb c (by simp)
  simp only [List.getD_cons_zero, List.getD_cons_succ]
  omega

/-- C2, at the octets 0x80 0x00 0x00: the decoded length is 8388608. -/
theorem DecodeHeader_length_witness :
    (9 ≤ [0x80, 0, 0, 1, 4, 0, 0, 0, 3].length ∧ ∀ x ∈ [0x80, 0, 0, 1, 4, 0, 0, 0, 3], x < 256)
    ∧ ∃ h, DecodeHeader [0x80, 0, 0, 1, 4, 0, 0, 0, 3] = some h ∧ h.Length = 8388608 :=
  ⟨by decide, DecodeHeader_length [0x80, 0, 0, 1, 4, 0, 0, 0, 3] (by decide) (by decide)⟩

/-- C3: decoded type, flags and stream id. For every input of at least nine
octets, `DecodeHeader` returns a header whose `HeaderType` is `d[3]`, whose
`Flags` is the raw byte `d[4]` and whose `StreamId` is
`(d[5]*2^24 + d[6]*2^16 + d[7]*2^8 + d[8]) mod 2^31`. -/
theorem DecodeHeader_fields (d : List Nat) (hlen : 9 ≤ d.length) (hb : ∀ x ∈ d, x < 256) :
    ∃ h, DecodeHeader d = some h
      ∧ h.HeaderType = d.getD 3 0
      ∧ h.Flags = d.getD 4 0
      ∧ h.StreamId = (d.getD 5 0 * 2 ^ 24 + d.getD 6 0 * 2 ^ 16 + d.getD 7 0 * 2 ^ 8
          + d.getD 8 0) % 2 ^ 31 := by
  obtain ⟨a, b, c, t, f, p, q, r, u, rest, rfl⟩ := nine_octets d hlen
  refine ⟨_, DecodeHeader_cons a b c t f p q r u rest, ?_, ?_, ?_⟩
  · simp only [List.getD_cons_zero, List.getD_cons_succ]
  · simp only [List.getD_cons_zero, List.getD_cons_succ]
  · simp only [List.getD_cons_zero, List.getD_cons_succ]
    omega

/-- C3, at a header with every stream-id bit set: type 0x09, flags 0xA5,
stream id 2^31 - 1. -/
theorem DecodeHeader_fields_witness :
    (9 ≤ [0, 0, 7, 9, 0xA5, 0xFF, 0xFF, 0xFF, 0xFF].length
      ∧ ∀ x ∈ [0, 0, 7, 9, 0xA5, 0xFF, 0xFF, 0xFF, 0xFF], x < 256)
    ∧ ∃ h, DecodeHeader [0, 0, 7, 9, 0xA5, 0xFF, 0xFF, 0xFF, 0xFF] = some h
      ∧ h.HeaderType = 9 ∧ h.Flags = 0xA5 ∧ h.StreamId = 2147483647 :=
  ⟨by decide,
   DecodeHeader_fields [0, 0, 7, 9, 0xA5, 0xFF, 0xFF, 0xFF, 0xFF] (by decide) (by decide)⟩

/-- C4: reserved-bit masking law. For two inputs `d` and `e` of nine octets
that agree everywhere except that octet 5 of `e` has its top bit (0x80) set
where `d` has it cleared, `DecodeHeader` returns a header on both and the two
headers are equal: same `StreamId`, and same `Length`, `HeaderType`, `Flags`. -/
theorem DecodeHeader_reserved_bit (d e : List Nat)
    (hd : d.length = 9) (he : e.length = 9)
    (hbd : ∀ x ∈ d, x < 256)
    (hsame : ∀ i, i < 9 → i ≠ 5 → e.getD i 0 = d.getD i 0)
    (hclear : d.getD 5 0 < 128) (hset : e.getD 5 0 = d.getD 5 0 + 128) :
    ∃ h, DecodeHeader d = some h ∧ DecodeHeader e = some h := by
  obtain ⟨a, b, c, t, f, p, q, r, u, rest, rfl⟩ := nine_octets d (by omega)
  obtain ⟨a2, b2, c2, t2, f2, p2, q2, r2, u2, rest2, rfl⟩ := nine_octets e (by omega)
  have h0 := hsame 0 (by decide) (by decide)
  have h1 := hsame 1 (by decide) (by decide)
  have h2 := hsame 2 (by decide) (by decide)
  have h3 := hsame 3 (by decide) (by decide)
  have h4 := hsame 4 (by decide) (by decide)
  have h6 := hsame 6 (by decide) (by decide)
  have h7 := hsame 7 (by decide) (by decide)
  have h8 := hsame 8 (by decide) (by decide)
  simp only [List.getD_cons_zero, List.getD_cons_succ] at h0 h1 h2 h3 h4 h6 h7 h8 hclear hset
  subst h0 h1 h2 h3 h4 h6 h7 h8 hset
  have hq : q2 < 256 := hbd q2 (by simp)
  have hr : r2 < 256 := hbd r2 (by simp)
  have hu : u2 < 256 := hbd u2 (by simp)
  refine ⟨_, DecodeHeader_cons a2 b2 c2 t2 f2 p q2 r2 u2 rest, ?_⟩
  rw [DecodeHeader_cons]
  have hsid : ((((p + 128) * 256 + q2) * 256 + r2) * 256 + u2) % 2 ^ 31
      = (((p * 256 + q2) * 256 + r2) * 256 + u2) % 2 ^ 31 := by
    omega
  rw [hsid]

/-- C4, at stream id 3: the field 0x80 0x00 0x00 0x03 decodes like
0x00 0x00 0x00 0x03. -/
theorem DecodeHeader_reserved_bit_witness :
    ([0, 0, 10, 1, 4, 0, 0, 0, 3].length = 9 ∧ [0, 0, 10, 1, 4, 0x80, 0, 0, 3].length = 9
      ∧ (∀ x ∈ [0, 0, 10, 1, 4, 0, 0, 0, 3], x < 256)
      ∧ (∀ i, i < 9 → i ≠ 5 →
          [0, 0, 10, 1, 4, 0x80, 0, 0, 3].getD i 0 = [0, 0, 10, 1, 4, 0, 0, 0, 3].getD i 0)
      ∧ [0, 0, 10, 1, 4, 0, 0, 0, 3].getD 5 0 < 128
      ∧ [0, 0, 10, 1, 4, 0x80, 0, 0, 3].getD 5 0 = [0, 0, 10, 1, 4, 0, 0, 0, 3].getD 5 0 + 128)
    ∧ ∃ h, DecodeHeader [0, 0, 10, 1, 4, 0, 0, 0, 3] = some h
        ∧ DecodeHeader [0, 0, 10, 1, 4, 0x80, 0, 0, 3] = some h :=
  ⟨by decide,
   DecodeHeader_reserved_bit [0, 0, 10, 1, 4, 0, 0, 0, 3] [0, 0, 10, 1, 4, 0x80, 0, 0, 3]
     (by decide) (by decide) (by decide) (by decide) (by decide) (by decide)⟩

/-- C5: encoded header layout. For every type byte `t`, 32-bit stream id `s`,
32-bit length `n` and list of flag bytes `fs`, `encodeHeader` returns exactly
nine octets: the low 24 bits of `n` big-endian, then `t`, then the OR of the
flags starting from 0, then all 32 bits of `s` big-endian. The result is the
same for `n` and `n mod 2^24`, and every octet is a byte. -/
theorem encodeHeader_layout (t s n : Nat) (fs : List Nat)
    (ht : t < 256) (hs : s < 2 ^ 32) (_hn : n < 2 ^ 32) (hfs : ∀ f ∈ fs, f < 256) :
    encodeHeader t s n fs
      = [n % 2 ^ 24 / 2 ^ 16, n % 2 ^ 24 / 2 ^ 8 % 256, n % 2 ^ 24 % 256, t,
         fs.foldl (fun b flag => b ||| flag) 0,
         s / 2 ^ 24, s / 2 ^ 16 % 256, s / 2 ^ 8 % 256, s % 256]
    ∧ (encodeHeader t s n fs).length = 9
    ∧ encodeHeader t s (n % 2 ^ 24) fs = encodeHeader t s n fs
    ∧ bigEndian ((encodeHeader t s n fs).take 3) = n % 2 ^ 24
    ∧ bigEndian ((encodeHeader t s n fs).drop 5) = s
    ∧ ∀ x ∈ encodeHeader t s n fs, x < 256 := by
  have hor : fs.foldl (fun b flag => b ||| flag) 0 < 256 := foldl_or_lt fs 0 (by decide) hfs
  have e0 : n / 2 ^ 16 % 256 = n % 2 ^ 24 / 2 ^ 16 := by omega
  have e1 : n / 2 ^ 8 % 256 = n % 2 ^ 24 / 2 ^ 8 % 256 := by omega
  have e2 : n % 256 = n % 2 ^ 24 % 256 := by omega
  have e3 : s / 2 ^ 24 % 256 = s / 2 ^ 24 := by omega
  have hoct : encodeHeader t s n fs
      = [n % 2 ^ 24 / 2 ^ 16, n % 2 ^ 24 / 2 ^ 8 % 256, n % 2 ^ 24 % 256, t,
         fs.foldl (fun b flag => b ||| flag) 0,
         s / 2 ^ 24, s / 2 ^ 16 % 256, s / 2 ^ 8 % 256, s % 256] := by
    rw [encodeHeader_octets, ← e0, ← e1, ← e2, e3]
    rfl
  refine ⟨hoct, ?_, ?_, ?_, ?_, ?_⟩
  · rw [hoct]; rfl
  · rw [encodeHeader_octets, encodeHeader_octets]
    have f0 : n % 2 ^ 24 / 2 ^ 16 % 256 = n / 2 ^ 16 % 256 := by omega
    have f1 : n % 2 ^ 24 / 2 ^ 8 % 256 = n / 2 ^ 8 % 256 := by omega
    have f2 : n % 2 ^ 24 % 256 = n % 256 := by omega
    rw [f0, f1, f2]
  · rw [hoct]
    simp only [List.take_succ_cons, List.take_zero, bigEndian, List.foldl_cons, List.foldl_nil]
    omega
  · rw [hoct]
    simp only [List.drop_succ_cons, List.drop_zero, bigEndian, List.foldl_cons, List.foldl_nil]
    omega
  · rw [hoct]
    intro x hx
    simp only [List.mem_cons, List.mem_singleton, List.not_mem_nil, or_false] at hx
    rcases hx with h | h | h | h | h | h | h | h | h <;> subst h <;> omega

/-- C5, at length 2^24 + 10 (the top eight bits are discarded) and a stream id
with the reserved bit set (written as given). -/
theorem encodeHeader_layout_witness :
    (1 < 256 ∧ 2147483651 < 2 ^ 32 ∧ 16777226 < 2 ^ 32 ∧ ∀ f ∈ [4, 1], f < 256)
    ∧ encodeHeader 1 2147483651 16777226 [4, 1] = [0, 0, 10, 1, 5, 0x80, 0, 0, 3] :=
  ⟨by decide,
   (encodeHeader_layout 1 2147483651 16777226 [4, 1] (by decide) (by decide) (by decide)
     (by decide)).1⟩

/-! ## Padding primitive -/

/-- Past its guard, `stripPadding` returns the octets between the length octet
and the trailing padding. -/
theorem stripPadding_cons (N : Nat) (rest : List Nat) (h : N ≤ rest.length) :
    stripPadding (N :: rest) = some (PaddingResult.content (rest.take (rest.length - N))) := by
  have hguard : ¬ (rest.length + 1 ≤ N) := by omega
  have hbounds : 1 ≤ rest.length + 1 - N ∧ rest.length + 1 - N ≤ rest.length + 1 := by omega
  have hsub : rest.length + 1 - N = (rest.length - N) + 1 := by omega
  simp only [stripPadding, index, slice, List.get?_cons_zero, List.length_cons, Option.bind_eq_bind,
    Option.some_bind, hguard, if_false, hbounds, and_self, if_true, Option.pure_def]
  rw [hsub]
  rfl

/-- At or past the payload length, `stripPadding` returns its error. -/
theorem stripPadding_cons_error (N : Nat) (rest : List Nat) (h : rest.length + 1 ≤ N) :
    stripPadding (N :: rest)
      = some (PaddingResult.error "Invalid HEADERS frame: padding >= payload.") := by
  simp only [stripPadding, index, List.get?_cons_zero, List.length_cons, Option.bind_eq_bind,
    Option.some_bind, h, if_true, Option.pure_def]

/-- C6, as stated, fails: the payload `[3, 'a', 'b', 'c']` is non-empty and its
first octet 3 is at least `len(p) - 1 = 3`, yet `stripPadding` returns the
empty content and no error. -/
theorem stripPadding_boundary_counterexample :
    [3, 97, 98, 99] ≠ ([] : List Nat)
    ∧ [3, 97, 98, 99].length - 1 ≤ [3, 97, 98, 99].headD 0
    ∧ stripPadding [3, 97, 98, 99] = some (PaddingResult.content [])
    ∧ ¬ ∃ msg, stripPadding [3, 97, 98, 99] = some (PaddingResult.error msg) := by
  have hres : stripPadding [3, 97, 98, 99] = some (PaddingResult.content []) := by decide
  refine ⟨by decide, by decide, hres, ?_⟩
  rintro ⟨msg, hmsg⟩
  rw [hres] at hmsg
  cases hmsg

/-- C6, amended: for every non-empty payload `p` whose first octet `N`
satisfies `N ≥ len(p)` (the declared pad length is at least the whole payload
length, length octet included), `stripPadding` fails with the padding error and
returns no content; when `N = len(p) - 1` it succeeds with the empty content. -/
theorem stripPadding_rejects (p : List Nat) (N : Nat) (hN : p.head? = some N) :
    (p.length ≤ N →
      stripPadding p = some (PaddingResult.error "Invalid HEADERS frame: padding >= payload."))
    ∧ (N = p.length - 1 → stripPadding p = some (PaddingResult.content [])) := by
  cases p with
  | nil => simp at hN
  | cons x rest =>
    simp only [List.head?_cons, Option.some.injEq] at hN
    subst hN
    constructor
    · intro hge
      exact stripPadding_cons_error x rest hge
    · intro heq
      simp only [List.length_cons, Nat.add_sub_cancel] at heq
      rw [stripPadding_cons x rest (by omega), heq, Nat.sub_self, List.take_zero]

/-- C6, amended, at the spec's payload `[5, 'a', 'b', 'c']`: the padding error. -/
theorem stripPadding_rejects_witness :
    [5, 97, 98, 99].head? = some 5 ∧ [5, 97, 98, 99].length ≤ 5
    ∧ stripPadding [5, 97, 98, 99]
        = some (PaddingResult.error "Invalid HEADERS frame: padding >= payload.") :=
  ⟨rfl, by decide, (stripPadding_rejects [5, 97, 98, 99] 5 rfl).1 (by decide)⟩

/-- C7: valid padding is stripped exactly. For every payload `p` whose first
octet `N` satisfies `N < len(p) - 1`, `stripPadding` succeeds with the content
`c = p[1 .. len(p)-N)`: `len(c) = len(p) - 1 - N`, `p` is `N`, then `c`, then the
last `N` octets of `p`, and for `N = 0` the content is `p` without its first
octet. -/
theorem stripPadding_valid (p : List Nat) (N : Nat) (hN : p.head? = some N)
    (hlt : N < p.length - 1) :
    ∃ c, stripPadding p = some (PaddingResult.content c)
      ∧ c = (p.take (p.length - N)).drop 1
      ∧ c.length = p.length - 1 - N
      ∧ p = [N] ++ c ++ p.drop (p.length - N)
      ∧ (p.drop (p.length - N)).length = N
      ∧ (N = 0 → c = p.tail) := by
  cases p with
  | nil => simp at hN
  | cons x rest =>
    simp only [List.head?_cons, Option.some.injEq] at hN
    subst hN
    simp only [List.length_cons, Nat.add_sub_cancel] at hlt
    have hsub : rest.length + 1 - x = (rest.length - x) + 1 := by omega
    refine ⟨_, stripPadding_cons x rest (by omega), ?_, ?_, ?_, ?_, ?_⟩
    · simp only [List.length_cons, hsub, List.take_succ_cons, List.drop_succ_cons, List.drop_zero]
    · simp only [List.length_take, List.length_cons, Nat.add_sub_cancel]
      omega
    · simp only [List.length_cons, hsub, List.drop_succ_cons, List.singleton_append,
        List.cons_append, List.nil_append, List.take_append_drop]
    · simp only [List.length_cons, List.length_drop]
      omega
    · intro h0
      subst h0
      simp only [Nat.sub_zero, List.take_length, List.tail_cons]

/-- C7, at the spec's payload `[2, 'a', 'b', 'c']`: the content is `['a']`. -/
theorem stripPadding_valid_witness :
    ([2, 97, 98, 99].head? = some 2 ∧ 2 < [2, 97, 98, 99].length - 1)
    ∧ ∃ c, stripPadding [2, 97, 98, 99] = some (PaddingResult.content c) ∧ c = [97]
      ∧ c.length = 1 ∧ [2, 97, 98, 99] = [2] ++ c ++ [98, 99] :=
  ⟨⟨rfl, by decide⟩,
   match stripPadding_valid [2, 97, 98, 99] 2 rfl (by decide) with
   | ⟨c, h1, h2, h3, h4, _, _⟩ => ⟨c, h1, h2, h3, h4⟩⟩

/-! ## Decoder registry and type names -/

/-- Past the nine known codes `FindDecoder` takes its `default` branch. -/
theorem FindDecoder_default (t : Nat) (h : 9 ≤ t) : FindDecoder t = none := by
  simp only [FindDecoder, DATA_TYPE, HEADERS_TYPE, PRIORITY_TYPE, RST_STREAM_TYPE,
    SETTINGS_TYPE, PUSH_PROMISE_TYPE, PING_TYPE, GOAWAY_TYPE, WINDOW_UPDATE_TYPE]
  repeat rw [if_neg (by omega)]

/-- On a byte, `%02X` prints exactly two digits: the high nibble, then the low
nibble. -/
theorem fmt02X_byte (u : Nat) (hu : u < 256) :
    fmt02X u = [upperHexDigit (u / 16), upperHexDigit (u % 16)] := by
  interval_cases u <;> decide

/-- C8: decoder registry. For every type code `t`, `FindDecoder t` is present
exactly when `t` is one of the nine known codes 0x00..0x08; each known code
gets its own decode function; distinct known codes get distinct decoders. -/
theorem FindDecoder_registry (t : Nat) (ht : t < 256) :
    ((FindDecoder t).isSome ↔
      t ∈ [DATA_TYPE, HEADERS_TYPE, PRIORITY_TYPE, RST_STREAM_TYPE, SETTINGS_TYPE,
           PUSH_PROMISE_TYPE, PING_TYPE, GOAWAY_TYPE, WINDOW_UPDATE_TYPE])
    ∧ ((FindDecoder t).isSome ↔ t ≤ 0x08)
    ∧ (FindDecoder DATA_TYPE = some Decoder.DecodeDataFrame
      ∧ FindDecoder HEADERS_TYPE = some Decoder.DecodeHeadersFrame
      ∧ FindDecoder PRIORITY_TYPE = some Decoder.DecodePriorityFrame
      ∧ FindDecoder RST_STREAM_TYPE = some Decoder.DecodeRstStreamFrame
      ∧ FindDecoder SETTINGS_TYPE = some Decoder.DecodeSettingsFrame
      ∧ FindDecoder PUSH_PROMISE_TYPE = some Decoder.DecodePushPromiseFrame
      ∧ FindDecoder PING_TYPE = some Decoder.DecodePingFrame
      ∧ FindDecoder GOAWAY_TYPE = some Decoder.DecodeGoAwayFrame
      ∧ FindDecoder WINDOW_UPDATE_TYPE = some Decoder.DecodeWindowUpdateFrame)
    ∧ (∀ u, u < 256 → (FindDecoder t).isSome → FindDecoder u = FindDecoder t → u = t) := by
  have hknown : t ≤ 8 ∨ 9 ≤ t := by omega
  refine ⟨?_, ?_, by decide, ?_⟩
  · rcases hknown with h | h
    · interval_cases t <;> decide
    · have hnone : FindDecoder t = none := FindDecoder_default t h
      simp only [hnone, Option.isSome_none, DATA_TYPE, HEADERS_TYPE, PRIORITY_TYPE,
        RST_STREAM_TYPE, SETTINGS_TYPE, PUSH_PROMISE_TYPE, PING_TYPE, GOAWAY_TYPE,
        WINDOW_UPDATE_TYPE, List.mem_cons, List.mem_singleton, List.not_mem_nil, or_false]
      constructor
      · intro hf; cases hf
      · intro hm; omega
  · rcases hknown with h | h
    · interval_cases t <;> decide
    · have hnone : FindDecoder t = none := FindDecoder_default t h
      simp only [hnone, Option.isSome_none]
      constructor
      · intro hf; cases hf
      · intro hm; omega
  · intro u hu hsome heq
    have hku : u ≤ 8 ∨ 9 ≤ u := by omega
    rcases hknown with h | h
    · rcases hku with h2 | h2
      · interval_cases t <;> interval_cases u <;> first | rfl | (exfalso; revert heq; decide)
      · have hnone : FindDecoder u = none := FindDecoder_default u h2
        rw [← heq, hnone] at hsome
        cases hsome
    · have hnone : FindDecoder t = none := FindDecoder_default t h
      rw [hnone] at hsome
      cases hsome

/-- C8, at the spec's codes: SETTINGS (0x04) has its decoder, 0x0F and 0x09
have none. -/
theorem FindDecoder_registry_witness :
    (0x04 < 256 ∧ 0x0F < 256 ∧ 0x09 < 256)
    ∧ (FindDecoder 0x04).isSome
    ∧ ¬ (FindDecoder 0x0F).isSome
    ∧ ¬ (FindDecoder 0x09).isSome :=
  ⟨by decide,
   (FindDecoder_registry 0x04 (by decide)).2.1.2 (by decide),
   fun h => absurd ((FindDecoder_registry 0x0F (by decide)).2.1.1 h) (by decide),
   fun h => absurd ((FindDecoder_registry 0x09 (by decide)).2.1.1 h) (by decide)⟩

/-- C9: type names. `Type.String` gives the nine known codes their canonical
names, in order; for every other code `t` (0x09..0xFF) it gives the
19-character string made of `'UNKNOWN TYPE 0x`, the two upper-case hexadecimal
digits of `t` (high nibble first) and a closing quote. -/
theorem Type_String_names (t : Nat) (ht : t < 256) :
    (Type_String 0x00 = "DATA" ∧ Type_String 0x01 = "HEADERS" ∧ Type_String 0x02 = "PRIORITY"
      ∧ Type_String 0x03 = "RST_STREAM" ∧ Type_String 0x04 = "SETTINGS"
      ∧ Type_String 0x05 = "PUSH_PROMISE" ∧ Type_String 0x06 = "PING"
      ∧ Type_String 0x07 = "GOAWAY" ∧ Type_String 0x08 = "WINDOW_UPDATE")
    ∧ (0x09 ≤ t →
        Type_String t
          = "'UNKNOWN TYPE 0x" ++ String.mk [upperHexDigit (t / 16), upperHexDigit (t % 16)] ++ "'"
        ∧ (Type_String t).length = 19) := by
  refine ⟨by decide, ?_⟩
  intro h9
  have hstr : Type_String t
      = "'UNKNOWN TYPE 0x" ++ String.mk [upperHexDigit (t / 16), upperHexDigit (t % 16)]
          ++ "'" := by
    simp only [Type_String, DATA_TYPE, HEADERS_TYPE, PRIORITY_TYPE, RST_STREAM_TYPE,
      SETTINGS_TYPE, PUSH_PROMISE_TYPE, PING_TYPE, GOAWAY_TYPE, WINDOW_UPDATE_TYPE]
    repeat rw [if_neg (by omega)]
    rw [fmt02X_byte t ht]
  refine ⟨hstr, ?_⟩
  rw [hstr]
  simp only [String.length_append, String.length]
  rfl

/-- C9, at the spec's codes: 0x7F and 0x09 get the diagnostic format. -/
theorem Type_String_names_witness :
    (0x7F < 256 ∧ 0x09 ≤ 0x7F ∧ 0x09 < 256 ∧ 0x09 ≤ 0x09)
    ∧ Type_String 0x01 = "HEADERS"
    ∧ Type_String 0x7F = "'UNKNOWN TYPE 0x7F'"
    ∧ Type_String 0x09 = "'UNKNOWN TYPE 0x09'" :=
  ⟨by decide,
   (Type_String_names 0x01 (by decide)).1.2.1,
   ((Type_String_names 0x7F (by decide)).2 (by decide)).1.trans (by decide),
   ((Type_String_names 0x09 (by decide)).2 (by decide)).1.trans (by decide)⟩

/-! ## Flags -/

/-- The test `b & 2^k != 0` reads bit `k` of `b`. -/
theorem and_two_pow_ne_zero (b k : Nat) : b &&& 2 ^ k ≠ 0 ↔ b / 2 ^ k % 2 = 1 := by
  constructor
  · intro h
    by_contra hc
    apply h
    apply Nat.eq_of_testBit_eq
    intro i
    rw [Nat.testBit_and, Nat.testBit_two_pow, Nat.zero_testBit]
    by_cases hki : k = i
    · subst hki
      rw [Nat.testBit_to_div_mod]
      simp [hc]
    · simp [hki]
  · intro h hz
    have hbit : (b &&& 2 ^ k).testBit k = true := by
      rw [Nat.testBit_and, Nat.testBit_two_pow_self, Nat.testBit_to_div_mod]
      simp [h]
    rw [hz, Nat.zero_testBit] at hbit
    cases hbit

/-- C10: flag set/isSet. For every single-bit flag `f = 2^k` (`k < 8`) and
every flags byte `b`: `f.isSet(b)` is true exactly when bit `k` of `b` is 1;
`f.set` turns `b` into `b OR f`, still a byte; after `f.set` the flag is set;
and setting `f` twice gives the same byte as setting it once. -/
theorem Flag_set_isSet (k b : Nat) (hk : k < 8) (hb : b < 256) :
    (Flag.isSet (2 ^ k) b = true ↔ b / 2 ^ k % 2 = 1)
    ∧ Flag.set (2 ^ k) b = b ||| 2 ^ k
    ∧ Flag.set (2 ^ k) b < 256
    ∧ Flag.isSet (2 ^ k) (Flag.set (2 ^ k) b) = true
    ∧ Flag.set (2 ^ k) (Flag.set (2 ^ k) b) = Flag.set (2 ^ k) b := by
  have hiff : ∀ c, Flag.isSet (2 ^ k) c = true ↔ c / 2 ^ k % 2 = 1 := by
    intro c
    simp only [Flag.isSet, bne_iff_ne]
    exact and_two_pow_ne_zero c k
  refine ⟨hiff b, rfl, ?_, ?_, ?_⟩
  · have hb8 : b < 2 ^ 8 := hb
    have hf8 : 2 ^ k < 2 ^ 8 := Nat.pow_lt_pow_right (by decide) hk
    exact Nat.or_lt_two_pow hb8 hf8
  · rw [hiff, ← and_two_pow_ne_zero]
    intro hz
    have hbit : ((b ||| 2 ^ k) &&& 2 ^ k).testBit k = true := by
      rw [Nat.testBit_and, Nat.testBit_or, Nat.testBit_two_pow_self, Bool.or_true, Bool.and_true]
    simp only [Flag.set] at hz
    rw [hz, Nat.zero_testBit] at hbit
    cases hbit
  · simp only [Flag.set, Nat.or_assoc, Nat.or_self]

/-- C10, at the flag 0x04 and the byte 0x01: the flag is not set in 0x01, and
setting it gives 0x05, in which it is set. -/
theorem Flag_set_isSet_witness :
    (2 < 8 ∧ 1 < 256)
    ∧ Flag.isSet 4 1 = false ∧ Flag.set 4 1 = 5 ∧ Flag.isSet 4 (Flag.set 4 1) = true
    ∧ Flag.set 4 (Flag.set 4 1) = Flag.set 4 1 :=
  ⟨by decide,
   by decide,
   (Flag_set_isSet 2 1 (by decide) (by decide)).2.1,
   (Flag_set_isSet 2 1 (by decide) (by decide)).2.2.2.1,
   (Flag_set_isSet 2 1 (by decide) (by decide)).2.2.2.2⟩

/-! ## Short header input and field ranges -/

/-- With no spare capacity the capacity-aware decoder is `DecodeHeader`. -/
theorem DecodeHeaderCap_nil (data : List Nat) : DecodeHeaderCap data [] = DecodeHeader data := by
  simp only [DecodeHeaderCap, DecodeHeader, sliceCap, slice, List.append_nil, List.length_nil,
    Nat.add_zero]

/-- Below nine octets of capacity the slice `data[5:9]`, or an index or slice
before it, is out of range. -/
theorem DecodeHeaderCap_none (data spare : List Nat)
    (hcap : data.length + spare.length < 9) : DecodeHeaderCap data spare = none := by
  have h9 : ¬ (5 ≤ 9 ∧ 9 ≤ data.length + spare.length) := by omega
  simp only [DecodeHeaderCap, sliceCap, h9, if_false, Option.bind_eq_bind, Option.bind_none,
    Option.bind_eq_none]
  intros
  trivial

/-- Below five octets of length the index `data[3]` or `data[4]` is out of
range, whatever the capacity. -/
theorem DecodeHeaderCap_short_index (data spare : List Nat) (hlen : data.length < 5) :
    DecodeHeaderCap data spare = none := by
  by_cases h3 : data.length ≤ 3
  · have hi3 : index data 3 = none := by
      simp only [index, List.get?_eq_none]
      omega
    simp only [DecodeHeaderCap, hi3, Option.bind_eq_bind, Option.bind_none, Option.bind_eq_none]
    intros
    trivial
  · have hi4 : index data 4 = none := by
      simp only [index, List.get?_eq_none]
      omega
    simp only [DecodeHeaderCap, hi4, Option.bind_eq_bind, Option.bind_none, Option.bind_eq_none]
    intros
    trivial

/-- On nine octets or more the capacity-aware decoder reads the first nine
octets, like `DecodeHeader`. -/
theorem DecodeHeaderCap_cons (a b c t f p q r u : Nat) (rest spare : List Nat) :
    DecodeHeaderCap (a :: b :: c :: t :: f :: p :: q :: r :: u :: rest) spare
      = some { Length := ((a * 256 + b) * 256 + c) % 2 ^ 31, HeaderType := t, Flags := f,
               StreamId := (((p * 256 + q) * 256 + r) * 256 + u) % 2 ^ 31 } := by
  have h3 : 3 ≤ rest.length + 1 + 1 + 1 + 1 + 1 + 1 + 1 + 1 + 1 + spare.length := by omega
  have h9 : 9 ≤ rest.length + 1 + 1 + 1 + 1 + 1 + 1 + 1 + 1 + 1 + spare.length := by omega
  simp [DecodeHeaderCap, sliceCap, index, uint32_ignoreFirstBit, bigEndian, h3, h9]

/-- C11, as stated, fails: a slice of six octets whose backing array holds
three more (capacity 9) has fewer than nine octets, yet no index or slice bound
is out of range and `DecodeHeader` returns a header, whose stream id is read
past the length of the slice. -/
theorem DecodeHeader_short_counterexample :
    [0, 0, 10, 1, 4, 0].length < 9
    ∧ DecodeHeaderCap [0, 0, 10, 1, 4, 0] [0, 0, 3]
        = some { Length := 10, HeaderType := 1, Flags := 4, StreamId := 3 } := by
  decide

/-- C11, amended: `DecodeHeader` performs no length check. For every input of
fewer than five octets, and for every input of fewer than nine octets whose
capacity is also below nine (in particular a slice whose capacity is its
length), it produces no header: an index or slice bound is out of range. For
every input of at least nine octets it produces a header, whatever the
capacity, and octets past the ninth are ignored. -/
theorem DecodeHeader_short (data spare : List Nat) :
    (data.length < 5 → DecodeHeaderCap data spare = none)
    ∧ (data.length + spare.length < 9 → DecodeHeaderCap data spare = none)
    ∧ (data.length < 9 → DecodeHeader data = none)
    ∧ (9 ≤ data.length →
        ∃ h, DecodeHeaderCap data spare = some h ∧ DecodeHeader data = some h
          ∧ DecodeHeader (data.take 9) = some h) := by
  refine ⟨DecodeHeaderCap_short_index data spare, DecodeHeaderCap_none data spare, ?_, ?_⟩
  · intro hlen
    rw [← DecodeHeaderCap_nil]
    exact DecodeHeaderCap_none data [] (by simpa using hlen)
  · intro hlen
    obtain ⟨a, b, c, t, f, p, q, r, u, rest, rfl⟩ := nine_octets data hlen
    refine ⟨_, DecodeHeaderCap_cons a b c t f p q r u rest spare,
      DecodeHeader_cons a b c t f p q r u rest, ?_⟩
    simp only [List.take_succ_cons, List.take_zero]
    exact DecodeHeader_cons a b c t f p q r u []

/-- C11, amended, at an 8-octet input without spare capacity (no header) and
at a 10-octet input (a header, the tenth octet ignored). -/
theorem DecodeHeader_short_witness :
    ([0, 0, 10, 1, 4, 0, 0, 0].length < 9 ∧ 9 ≤ [0, 0, 10, 1, 4, 0, 0, 0, 3, 77].length)
    ∧ DecodeHeader [0, 0, 10, 1, 4, 0, 0, 0] = none
    ∧ ∃ h, DecodeHeaderCap [0, 0, 10, 1, 4, 0, 0, 0, 3, 77] [] = some h
        ∧ DecodeHeader [0, 0, 10, 1, 4, 0, 0, 0, 3, 77] = some h
        ∧ DecodeHeader [0, 0, 10, 1, 4, 0, 0, 0, 3] = some h :=
  ⟨by decide,
   (DecodeHeader_short [0, 0, 10, 1, 4, 0, 0, 0] []).2.2.1 (by decide),
   (DecodeHeader_short [0, 0, 10, 1, 4, 0, 0, 0, 3, 77] []).2.2.2 (by decide)⟩

/-- C12: decoded headers respect the field ranges. For every input of at least
nine octets, `DecodeHeader` returns a header with `Length ≤ 2^24 - 1` and
`StreamId ≤ 2^31 - 1`: the reserved bit of the stream id is cleared. -/
theorem DecodeHeader_ranges (d : List Nat) (hlen : 9 ≤ d.length) (hb : ∀ x ∈ d, x < 256) :
    ∃ h, DecodeHeader d = some h ∧ h.Length ≤ 2 ^ 24 - 1 ∧ h.StreamId ≤ 2 ^ 31 - 1 := by
  obtain ⟨a, b, c, t, f, p, q, r, u, rest, rfl⟩ := nine_octets d hlen
  refine ⟨_, DecodeHeader_cons a b c t f p q r u rest, ?_, ?_⟩
  · have ha : a < 256 := hb a (by simp)
    have hb1 : b < 256 := hb b (by simp)
    have hc : c < 256 := hb c (by simp)
    show ((a * 256 + b) * 256 + c) % 2 ^ 31 ≤ 2 ^ 24 - 1
    omega
  · show (((p * 256 + q) * 256 + r) * 256 + u) % 2 ^ 31 ≤ 2 ^ 31 - 1
    omega

/-- C12, at a header with every length and stream-id bit set: length 2^24 - 1
and stream id 2^31 - 1. -/
theorem DecodeHeader_ranges_witness :
    (9 ≤ [0xFF, 0xFF, 0xFF, 0, 0, 0xFF, 0xFF, 0xFF, 0xFF].length
      ∧ ∀ x ∈ [0xFF, 0xFF, 0xFF, 0, 0, 0xFF, 0xFF, 0xFF, 0xFF], x < 256)
    ∧ ∃ h, DecodeHeader [0xFF, 0xFF, 0xFF, 0, 0, 0xFF, 0xFF, 0xFF, 0xFF] = some h
        ∧ h.Length ≤ 16777215 ∧ h.StreamId ≤ 2147483647 :=
  ⟨by decide,
   DecodeHeader_ranges [0xFF, 0xFF, 0xFF, 0, 0, 0xFF, 0xFF, 0xFF, 0xFF] (by decide) (by decide)⟩

/-! ## Exact boundary of the padding check -/

/-- C13: exact rejection boundary of `stripPadding`. For every non-empty
payload `p` with first octet `N`, the error is returned if and only if
`len(p) ≤ N`; otherwise the call succeeds, the slice bounds satisfy
`1 ≤ len(p) - N ≤ len(p)` and the content is `p[1 : len(p)-N]`. On the empty
payload the read of `payload[0]` is out of range. -/
theorem stripPadding_exact_guard (p : List Nat) :
    (p = [] → stripPadding p = none)
    ∧ ∀ N, p.head? = some N →
        ((∃ msg, stripPadding p = some (PaddingResult.error msg)) ↔ p.length ≤ N)
        ∧ (p.length ≤ N →
            stripPadding p
              = some (PaddingResult.error "Invalid HEADERS frame: padding >= payload."))
        ∧ (¬ p.length ≤ N →
            1 ≤ p.length - N ∧ p.length - N ≤ p.length
            ∧ slice p 1 (p.length - N) = some ((p.take (p.length - N)).drop 1)
            ∧ stripPadding p = some (PaddingResult.content ((p.take (p.length - N)).drop 1))) := by
  constructor
  · intro hnil
    subst hnil
    rfl
  · intro N hN
    cases p with
    | nil => simp at hN
    | cons x rest =>
      simp only [List.head?_cons, Option.some.injEq] at hN
      subst hN
      have hsucc : ∀ (h : ¬ (x :: rest).length ≤ x),
          stripPadding (x :: rest)
            = some (PaddingResult.content (((x :: rest).take ((x :: rest).length - x)).drop 1)) := by
        intro h
        simp only [List.length_cons] at h
        have hsub : rest.length + 1 - x = (rest.length - x) + 1 := by omega
        rw [stripPadding_cons x rest (by omega)]
        simp only [List.length_cons, hsub, List.take_succ_cons, List.drop_succ_cons,
          List.drop_zero]
      refine ⟨⟨?_, ?_⟩, ?_, ?_⟩
      · rintro ⟨msg, hmsg⟩
        by_contra hgt
        rw [hsucc hgt] at hmsg
        cases hmsg
      · intro hle
        exact ⟨_, stripPadding_cons_error x rest hle⟩
      · intro hle
        exact stripPadding_cons_error x rest hle
      · intro hgt
        have hlen : ¬ (rest.length + 1 ≤ x) := hgt
        have hb : 1 ≤ (x :: rest).length - x ∧ (x :: rest).length - x ≤ (x :: rest).length := by
          simp only [List.length_cons]
          omega
        refine ⟨hb.1, hb.2, ?_, hsucc hgt⟩
        simp only [slice, hb, and_self, if_true]

/-- C13, at the boundary: `[4, 'a', 'b', 'c']` (`N = len`) is rejected,
`[3, 'a', 'b', 'c']` (`N = len - 1`) is accepted with the empty content. -/
theorem stripPadding_exact_guard_witness :
    ([4, 97, 98, 99].head? = some 4 ∧ [4, 97, 98, 99].length ≤ 4
      ∧ [3, 97, 98, 99].head? = some 3 ∧ ¬ [3, 97, 98, 99].length ≤ 3)
    ∧ stripPadding [] = none
    ∧ stripPadding [4, 97, 98, 99]
        = some (PaddingResult.error "Invalid HEADERS frame: padding >= payload.")
    ∧ stripPadding [3, 97, 98, 99] = some (PaddingResult.content []) :=
  ⟨by decide,
   (stripPadding_exact_guard []).1 rfl,
   ((stripPadding_exact_guard [4, 97, 98, 99]).2 4 rfl).2.1 (by decide),
   (((stripPadding_exact_guard [3, 97, 98, 99]).2 3 rfl).2.2 (by decide)).2.2.2⟩

/-! ## Flags: frame of `set` -/

/-- C14: `Flag.set` changes only its own bits. For every flag `f`, flags byte
`b` and flag `g` disjoint from `f` (`g AND f = 0`), `g.isSet(f.set(b))` equals
`g.isSet(b)`; every bit of `b` outside `f` is unchanged by `f.set`, and no bit
is ever cleared. -/
theorem Flag_set_frame (f g b : Nat) (hf : f < 256) (_hg : g < 256) (hb : b < 256)
    (hdisj : g &&& f = 0) :
    Flag.isSet g (Flag.set f b) = Flag.isSet g b
    ∧ (∀ i, f.testBit i = false → (Flag.set f b).testBit i = b.testBit i)
    ∧ (∀ i, b.testBit i = true → (Flag.set f b).testBit i = true)
    ∧ Flag.set f b < 256 := by
  have hand : (b ||| f) &&& g = b &&& g := by
    apply Nat.eq_of_testBit_eq
    intro i
    have hbit : (g &&& f).testBit i = false := by rw [hdisj, Nat.zero_testBit]
    rw [Nat.testBit_and] at hbit
    rw [Nat.testBit_and, Nat.testBit_or, Nat.testBit_and]
    cases hbi : b.testBit i <;> cases hfi : f.testBit i <;> cases hgi : g.testBit i <;>
      simp_all
  refine ⟨?_, ?_, ?_, ?_⟩
  · simp only [Flag.isSet, Flag.set, hand]
  · intro i hfi
    simp only [Flag.set, Nat.testBit_or, hfi, Bool.or_false]
  · intro i hbi
    simp only [Flag.set, Nat.testBit_or, hbi, Bool.true_or]
  · have hb8 : b < 2 ^ 8 := hb
    have hf8 : f < 2 ^ 8 := hf
    exact Nat.or_lt_two_pow hb8 hf8

/-- C14, at the flags 0x04 and 0x01 on the byte 0x20: setting 0x04 leaves the
flag 0x01 unset. -/
theorem Flag_set_frame_witness :
    (4 < 256 ∧ 1 < 256 ∧ 0x20 < 256 ∧ 1 &&& 4 = 0)
    ∧ Flag.isSet 1 (Flag.set 4 0x20) = Flag.isSet 1 0x20
    ∧ Flag.set 4 0x20 = 0x24 :=
  ⟨by decide,
   (Flag_set_frame 4 1 0x20 (by decide) (by decide) (by decide) (by decide)).1,
   by decide⟩

/-! ## Reserved bit through the codec -/

/-- C15: the encoder writes the reserved bit as given and the decoder drops it.
For every 32-bit stream id `s`, decoding the encoded header gives the stream id
`s mod 2^31`; when `2^31 ≤ s`, octet 5 of the encoded header has its top bit
set and the decoded stream id is `s - 2^31`, not `s`. -/
theorem decode_encode_reserved_bit (t s n : Nat) (fs : List Nat) (hs : s < 2 ^ 32) :
    ∃ h, DecodeHeader (encodeHeader t s n fs) = some h
      ∧ h.StreamId = s % 2 ^ 31
      ∧ (2 ^ 31 ≤ s →
          128 ≤ (encodeHeader t s n fs).getD 5 0 ∧ h.StreamId = s - 2 ^ 31 ∧ h.StreamId ≠ s) := by
  rw [encodeHeader_octets, DecodeHeader_cons]
  refine ⟨_, rfl, ?_, ?_⟩
  · show (((s / 2 ^ 24 % 256 * 256 + s / 2 ^ 16 % 256) * 256 + s / 2 ^ 8 % 256) * 256
      + s % 256) % 2 ^ 31 = s % 2 ^ 31
    omega
  · intro hge
    refine ⟨?_, ?_, ?_⟩
    · show 128 ≤ s / 2 ^ 24 % 256
      omega
    · show (((s / 2 ^ 24 % 256 * 256 + s / 2 ^ 16 % 256) * 256 + s / 2 ^ 8 % 256) * 256
        + s % 256) % 2 ^ 31 = s - 2 ^ 31
      omega
    · show (((s / 2 ^ 24 % 256 * 256 + s / 2 ^ 16 % 256) * 256 + s / 2 ^ 8 % 256) * 256
        + s % 256) % 2 ^ 31 ≠ s
      omega

/-- C15, at the stream id 2^31 + 3: octet 5 is 0x80 and the decoded stream id
is 3. -/
theorem decode_encode_reserved_bit_witness :
    (2147483651 < 2 ^ 32 ∧ 2 ^ 31 ≤ 2147483651)
    ∧ (encodeHeader 1 2147483651 10 [4]).getD 5 0 = 0x80
    ∧ ∃ h, DecodeHeader (encodeHeader 1 2147483651 10 [4]) = some h ∧ h.StreamId = 3 :=
  ⟨by decide,
   by decide,
   match decode_encode_reserved_bit 1 2147483651 10 [4] (by decide) with
   | ⟨h, h1, h2, _⟩ => ⟨h, h1, h2⟩⟩

/-! ## The flags byte as a function of the set of flags -/

/-- Bit `i` of the OR of a list of flags into `x`: set in `x` or in one of the
flags. -/
theorem testBit_foldl_or (flags : List Nat) (x i : Nat) :
    (flags.foldl (fun b flag => b ||| flag) x).testBit i
      = (x.testBit i || flags.any (fun flag => flag.testBit i)) := by
  induction flags generalizing x with
  | nil => simp
  | cons f fs ih =>
    rw [List.foldl_cons, ih, Nat.testBit_or, List.any_cons, Bool.or_assoc]

/-- Two lists with the same members give the same flags byte. -/
theorem combineFlags_congr (fs gs : List Nat) (hmem : ∀ f, f ∈ fs ↔ f ∈ gs) :
    combineFlags fs = combineFlags gs := by
  apply Nat.eq_of_testBit_eq
  intro i
  unfold combineFlags
  rw [testBit_foldl_or, testBit_foldl_or]
  congr 1
  rw [Bool.eq_iff_iff, List.any_eq_true, List.any_eq_true]
  constructor
  · rintro ⟨f, hf, hbit⟩
    exact ⟨f, (hmem f).1 hf, hbit⟩
  · rintro ⟨f, hf, hbit⟩
    exact ⟨f, (hmem f).2 hf, hbit⟩

/-- The flags byte of a concatenation is the OR of the two flags bytes. -/
theorem combineFlags_append (fs gs : List Nat) :
    combineFlags (fs ++ gs) = combineFlags fs ||| combineFlags gs := by
  apply Nat.eq_of_testBit_eq
  intro i
  unfold combineFlags
  rw [Nat.testBit_or, testBit_foldl_or, testBit_foldl_or, testBit_foldl_or, List.any_append]
  simp only [Nat.zero_testBit, Bool.false_or]

/-- C16: the encoded header depends only on the set of flags given. For every
two flag lists `fs` and `gs` with the same members (one a permutation of the
other, or lists that differ only by repeated elements) `encodeHeader` returns
the same octets. For every two flag lists `fs` and `gs`, with or without
common members, the flags octet for the concatenation `fs ++ gs` is the OR of
the flags octets for `fs` and for `gs`; the flags octet is 0 for the empty list
and `f` for the single flag `f`. -/
theorem encodeHeader_flag_set (t s n : Nat) (fs gs : List Nat) :
    ((∀ f, f ∈ fs ↔ f ∈ gs) → encodeHeader t s n fs = encodeHeader t s n gs)
    ∧ (fs.Perm gs → encodeHeader t s n fs = encodeHeader t s n gs)
    ∧ encodeHeader t s n fs = encodeHeader t s n fs.dedup
    ∧ (encodeHeader t s n (fs ++ gs)).getD 4 0
        = (encodeHeader t s n fs).getD 4 0 ||| (encodeHeader t s n gs).getD 4 0
    ∧ (encodeHeader t s n []).getD 4 0 = 0
    ∧ (∀ f, (encodeHeader t s n [f]).getD 4 0 = f) := by
  refine ⟨?_, ?_, ?_, ?_, ?_, ?_⟩
  · intro hmem
    rw [encodeHeader_octets, encodeHeader_octets, combineFlags_congr fs gs hmem]
  · intro hperm
    rw [encodeHeader_octets, encodeHeader_octets,
      combineFlags_congr fs gs (fun f => hperm.mem_iff)]
  · rw [encodeHeader_octets, encodeHeader_octets,
      combineFlags_congr fs fs.dedup (fun f => List.mem_dedup.symm)]
  · rw [encodeHeader_octets, encodeHeader_octets, encodeHeader_octets]
    exact combineFlags_append fs gs
  · rw [encodeHeader_octets]
    rfl
  · intro f
    rw [encodeHeader_octets]
    show combineFlags [f] = f
    simp only [combineFlags, List.foldl_cons, List.foldl_nil, Nat.zero_or]

/-- C16, at the lists `[4, 1, 4]` and `[1, 4]` (same members, same header) and
at the disjoint lists `[4]` and `[1]` (the flags octet of `[4] ++ [1]` is
`0x04 OR 0x01 = 0x05`). -/
theorem encodeHeader_flag_set_witness :
    ((∀ f, f ∈ [4, 1, 4] ↔ f ∈ [1, 4]) ∧ ¬ (∀ f, f ∈ [4] ↔ f ∈ [1]))
    ∧ encodeHeader 1 3 10 [4, 1, 4] = encodeHeader 1 3 10 [1, 4]
    ∧ (encodeHeader 1 3 10 ([4] ++ [1])).getD 4 0
        = (encodeHeader 1 3 10 [4]).getD 4 0 ||| (encodeHeader 1 3 10 [1]).getD 4 0
    ∧ (encodeHeader 1 3 10 [4]).getD 4 0 = 4
    ∧ (encodeHeader 1 3 10 [1]).getD 4 0 = 1
    ∧ (encodeHeader 1 3 10 ([4] ++ [1])).getD 4 0 = 5 :=
  ⟨⟨by simp [or_comm], by simp⟩,
   (encodeHeader_flag_set 1 3 10 [4, 1, 4] [1, 4]).1 (by simp [or_comm]),
   (encodeHeader_flag_set 1 3 10 [4] [1]).2.2.2.1,
   (encodeHeader_flag_set 1 3 10 [4] [1]).2.2.2.2.2 4,
   (encodeHeader_flag_set 1 3 10 [4] [1]).2.2.2.2.2 1,
   (encodeHeader_flag_set 1 3 10 [4] [1]).2.2.2.1⟩

/-! ## Re-encoding a decoded header -/

/-- C17: re-encoding a decoded header reproduces the wire octets. For every
9-octet buffer `d` in which the top bit of octet 0 and the top bit of octet 5
(the reserved bit) are clear, with `h = DecodeHeader(d)`,
`encodeHeader(h.HeaderType, h.StreamId, h.Length, [Flag(h.Flags)])` is `d`. -/
theorem reencode_decoded_header (d : List Nat) (hlen : d.length = 9)
    (hb : ∀ x ∈ d, x < 256) (h0 : d.getD 0 0 < 128) (h5 : d.getD 5 0 < 128) :
    ∃ h, DecodeHeader d = some h
      ∧ encodeHeader h.HeaderType h.StreamId h.Length [h.Flags] = d := by
  obtain ⟨a, b, c, t, f, p, q, r, u, rest, rfl⟩ := nine_octets d (by omega)
  have hrest : rest = [] := by
    simp only [List.length_cons] at hlen
    exact List.eq_nil_of_length_eq_zero (by omega)
  subst hrest
  simp only [List.getD_cons_zero, List.getD_cons_succ] at h0 h5
  have ha : a < 256 := hb a (by simp)
  have hb1 : b < 256 := hb b (by simp)
  have hc : c < 256 := hb c (by simp)
  have hq : q < 256 := hb q (by simp)
  have hr : r < 256 := hb r (by simp)
  have hu : u < 256 := hb u (by simp)
  refine ⟨_, DecodeHeader_cons a b c t f p q r u [], ?_⟩
  rw [encodeHeader_octets]
  have hflags : combineFlags [f] = f := by
    simp only [combineFlags, List.foldl_cons, List.foldl_nil, Nat.zero_or]
  have e0 : ((a * 256 + b) * 256 + c) % 2 ^ 31 / 2 ^ 16 % 256 = a := by omega
  have e1 : ((a * 256 + b) * 256 + c) % 2 ^ 31 / 2 ^ 8 % 256 = b := by omega
  have e2 : ((a * 256 + b) * 256 + c) % 2 ^ 31 % 256 = c := by omega
  have e5 : (((p * 256 + q) * 256 + r) * 256 + u) % 2 ^ 31 / 2 ^ 24 % 256 = p := by omega
  have e6 : (((p * 256 + q) * 256 + r) * 256 + u) % 2 ^ 31 / 2 ^ 16 % 256 = q := by omega
  have e7 : (((p * 256 + q) * 256 + r) * 256 + u) % 2 ^ 31 / 2 ^ 8 % 256 = r := by omega
  have e8 : (((p * 256 + q) * 256 + r) * 256 + u) % 2 ^ 31 % 256 = u := by omega
  rw [hflags, e0, e1, e2, e5, e6, e7, e8]

/-- C17, at the wire octets of a HEADERS header of length 10 on stream 3 with
flags 0x05. -/
theorem reencode_decoded_header_witness :
    ([0, 0, 10, 1, 5, 0, 0, 0, 3].length = 9 ∧ (∀ x ∈ [0, 0, 10, 1, 5, 0, 0, 0, 3], x < 256)
      ∧ [0, 0, 10, 1, 5, 0, 0, 0, 3].getD 0 0 < 128
      ∧ [0, 0, 10, 1, 5, 0, 0, 0, 3].getD 5 0 < 128)
    ∧ ∃ h, DecodeHeader [0, 0, 10, 1, 5, 0, 0, 0, 3] = some h
        ∧ encodeHeader h.HeaderType h.StreamId h.Length [h.Flags]
            = [0, 0, 10, 1, 5, 0, 0, 0, 3] :=
  ⟨by decide,
   reencode_decoded_header [0, 0, 10, 1, 5, 0, 0, 0, 3] (by decide) (by decide) (by decide)
     (by decide)⟩

/-! ## Injectivity of the type names -/

/-- Past the nine known codes the name has the diagnostic format. -/
theorem Type_String_unknown (t : Nat) (ht : t < 256) (h9 : 9 ≤ t) :
    Type_String t
      = "'UNKNOWN TYPE 0x" ++ String.mk [upperHexDigit (t / 16), upperHexDigit (t % 16)]
          ++ "'" := by
  simp only [Type_String, DATA_TYPE, HEADERS_TYPE, PRIORITY_TYPE, RST_STREAM_TYPE,
    SETTINGS_TYPE, PUSH_PROMISE_TYPE, PING_TYPE, GOAWAY_TYPE, WINDOW_UPDATE_TYPE]
  repeat rw [if_neg (by omega)]
  rw [fmt02X_byte t ht]

/-- The sixteen hexadecimal digits are pairwise distinct. -/
theorem upperHexDigit_inj (x y : Nat) (hx : x < 16) (hy : y < 16)
    (h : upperHexDigit x = upperHexDigit y) : x = y := by
  interval_cases x <;> interval_cases y <;> first | rfl | (exfalso; revert h; decide)

/-- The diagnostic format has 19 characters. -/
theorem Type_String_unknown_length (t : Nat) (ht : t < 256) (h9 : 9 ≤ t) :
    (Type_String t).length = 19 := by
  rw [Type_String_unknown t ht h9]
  simp only [String.length_append, String.length]
  rfl

/-- A known name is never equal to a diagnostic name: it is shorter. -/
theorem Type_String_known_ne_unknown (t u : Nat) (ht : t ≤ 8) (hu : u < 256) (h9 : 9 ≤ u) :
    Type_String t ≠ Type_String u := by
  intro heq
  have hlen := congrArg String.length heq
  rw [Type_String_unknown_length u hu h9] at hlen
  interval_cases t <;> revert hlen <;> decide

/-- C18: `Type.String` is injective over the 256 type codes. For every two type
codes `t1 ≠ t2` the names differ: the nine names are pairwise distinct, none of
them has the diagnostic format, and distinct unknown codes give distinct
hexadecimal digits. -/
theorem Type_String_injective (t1 t2 : Nat) (h1 : t1 < 256) (h2 : t2 < 256)
    (hne : t1 ≠ t2) : Type_String t1 ≠ Type_String t2 := by
  have hk1 : t1 ≤ 8 ∨ 9 ≤ t1 := by omega
  have hk2 : t2 ≤ 8 ∨ 9 ≤ t2 := by omega
  rcases hk1 with hk1 | hk1 <;> rcases hk2 with hk2 | hk2
  · interval_cases t1 <;> interval_cases t2 <;> first | exact absurd rfl hne | decide
  · exact Type_String_known_ne_unknown t1 t2 hk1 h2 hk2
  · exact fun heq => Type_String_known_ne_unknown t2 t1 hk2 h1 hk1 heq.symm
  · intro heq
    rw [Type_String_unknown t1 h1 hk1, Type_String_unknown t2 h2 hk2] at heq
    have hdata := congrArg String.data heq
    simp only [String.data_append, List.append_cancel_right_eq, List.append_cancel_left_eq,
      List.cons.injEq, and_true] at hdata
    have hhi := upperHexDigit_inj (t1 / 16) (t2 / 16) (by omega) (by omega) hdata.1
    have hlo := upperHexDigit_inj (t1 % 16) (t2 % 16) (by omega) (by omega) hdata.2
    omega

/-- C18, at the codes 0x09 and 0x0A: two unknown codes with distinct names. -/
theorem Type_String_injective_witness :
    (0x09 < 256 ∧ 0x0A < 256 ∧ 0x09 ≠ 0x0A)
    ∧ Type_String 0x09 ≠ Type_String 0x0A :=
  ⟨by decide, Type_String_injective 0x09 0x0A (by decide) (by decide) (by decide)⟩

end frames
